import Mathlib

/-!
# Verification of the `xdg-mime-rs` classification core

A shallow embedding of the MIME classification library: the alias table
(`src/alias.rs`), parents map (`src/parent.rs`), icon loader (`src/icon.rs`),
glob engine (`src/glob.rs`), magic engine (`src/magic.rs`) and the classifier
facade with its guess algorithm (`src/lib.rs`), together with theorems about
the behaviour of these operations.

Conventions of the embedding:

* Bytes are modelled as `Nat` (all byte values are `< 256`; masking with
  `Nat.land` never overflows, so no modulus is needed).
* A MIME identifier is a pair of its `type` and `subtype` strings.  The `mime`
  crate compares identifiers case-insensitively but stores the parsed essence;
  all identifiers handled by the claims are lower-case, so equality is
  structural.
* Rust functions that can panic or diverge are embedded with an `Option`
  result: `none` is a panic (a failed `assert!`, `unwrap`, or
  `slice::windows(0)`) or non-termination; `some` is a normal return.
* The unbounded recursion of `SharedMimeInfo::mime_type_subclass` is embedded
  with an explicit fuel argument: the Rust call terminates with result `b`
  iff some fuel yields `some b`, and diverges iff every fuel yields `none`.
* `HashMap`/`HashSet` state is modelled as association lists / lists; the
  theorems quantify over every list, hence over every iteration order.
-/

namespace XdgMime

/-- A parsed MIME identifier: the `type/subtype` essence of `mime::Mime`. -/
structure MimeT where
  type_ : String
  subtype : String
deriving DecidableEq, Repr

/-- `mime::APPLICATION_OCTET_STREAM`. -/
def octetStream : MimeT := ⟨"application", "octet-stream"⟩

/-- `mime::TEXT_PLAIN`. -/
def textPlain : MimeT := ⟨"text", "plain"⟩

/-- The `application/x-zerosize` MIME type built by
`SharedMimeInfo::get_mime_type_for_data` for empty data. -/
def xZerosize : MimeT := ⟨"application", "x-zerosize"⟩

/-! ## Alias table (`src/alias.rs`) -/

/-- One record of `AliasesList`: `(alias, mime_type)`. -/
structure Alias where
  alias_ : MimeT
  mime_type : MimeT
deriving DecidableEq, Repr

/-- `AliasesList::unalias_mime_type`: the canonical type of the first alias
record whose `alias` equals `mime_type`, if any. -/
def unaliasList (aliases : List Alias) (mime_type : MimeT) : Option MimeT :=
  (aliases.find? (fun a => a.alias_ = mime_type)).map (·.mime_type)

/-! ## Parents map (`src/parent.rs`) -/

/-- `ParentsMap`: the `HashMap<Mime, Vec<Mime>>` as an association list with
pairwise-distinct keys (the iteration order of the hash map is irrelevant
because lookups scan for an exact key). -/
abbrev ParentsMap := List (MimeT × List MimeT)

/-- `ParentsMap::lookup`: the parent list stored under `mime_type`. -/
def parentsLookup (pm : ParentsMap) (mime_type : MimeT) : Option (List MimeT) :=
  (pm.find? (fun p => p.1 = mime_type)).map (·.2)

/-- `ParentsMap::add_subclass`: append `parent` to the bucket of `child`
(creating it if missing) unless already present. -/
def addSubclass (pm : ParentsMap) (child parent : MimeT) : ParentsMap :=
  match pm with
  | [] => [(child, [parent])]
  | (k, v) :: rest =>
    if k = child then
      (k, if parent ∈ v then v else v ++ [parent]) :: rest
    else
      (k, v) :: addSubclass rest child parent

/-! ## Magic engine (`src/magic.rs`) -/

/-- A binary magic rule (`MagicRule` in `src/magic.rs`). -/
structure MagicRule where
  indent : Nat
  start_offset : Nat
  value : List Nat
  mask : Option (List Nat)
  word_size : Nat
  range_length : Nat
deriving DecidableEq, Repr

/-- `masked_slices_are_equal` without its `assert!`: compare `a & mask` with
`b & mask` element-wise (the iterators `zip` with `mask`, so lengths are cut
to the mask as in the source; the source asserts the lengths equal first,
which the caller models separately). -/
def maskedSlicesAreEqual (a b mask : List Nat) : Bool :=
  List.zipWith Nat.land a mask = List.zipWith Nat.land b mask

/-- The window iterator of `MagicRule::matches_data`:
`data.windows(L).skip(start_offset).take(range_length)`, where `L` is the
value's length.  `data.windows(L)` yields the slice `data[i..i+L]` for each
`i < data.len() + 1 - L`. -/
def ruleWindows (r : MagicRule) (data : List Nat) : List (List Nat) :=
  (((List.range (data.length + 1 - r.value.length)).map
      (fun i => (data.drop i).take r.value.length)).drop r.start_offset).take
    r.range_length

/-- The total core of `MagicRule::matches_data`: `any` window compared
(masked or exact) with the value. -/
def matchesDataCore (r : MagicRule) (data : List Nat) : Bool :=
  match r.mask with
  | some mask => (ruleWindows r data).any (fun w => maskedSlicesAreEqual w r.value mask)
  | none => (ruleWindows r data).any (fun w => w = r.value)

/-- `MagicRule::matches_data`, including its panics: the function `assert!`s
that an existing mask has the value's length, and `data.windows(len)` panics
when the value is empty (`slice::windows` requires a non-zero size).  `none`
models a panic. -/
def matchesData (r : MagicRule) (data : List Nat) : Option Bool :=
  match r.mask with
  | some mask =>
    if mask.length ≠ r.value.length then none
    else if r.value.length = 0 then none
    else some (matchesDataCore r data)
  | none =>
    if r.value.length = 0 then none
    else some (matchesDataCore r data)

/-- `MagicRule::extent`: the maximal byte index the rule may inspect. -/
def MagicRule.extent (r : MagicRule) : Nat :=
  r.value.length + r.start_offset + r.range_length

/-- A magic entry (`MagicEntry` in `src/magic.rs`): a MIME type, a priority
and the pre-order flattening of a rule tree. -/
structure MagicEntry where
  mime_type : MimeT
  priority : Nat
  rules : List MagicRule
deriving DecidableEq, Repr

/-- The loop of `MagicEntry::matches`: scan `rules` keeping a current depth,
consider a rule only when its indent equals the depth and it matches; on a
match, return the entry's result if the rule is last or the next rule does
not go deeper, else descend.  The outer `Option` is a panic of
`matches_data`; the inner one is match / no match. -/
def entryMatchesAux (mt : MimeT) (prio : Nat) (data : List Nat) :
    List MagicRule → Nat → Option (Option (MimeT × Nat))
  | [], _ => some none
  | r :: rest, depth =>
    if r.indent = depth then
      match matchesData r data with
      | none => none
      | some true =>
        match rest with
        | [] => some (some (mt, prio))
        | next :: _ =>
          if next.indent ≤ depth then some (some (mt, prio))
          else entryMatchesAux mt prio data rest (depth + 1)
      | some false => entryMatchesAux mt prio data rest depth
    else entryMatchesAux mt prio data rest depth

/-- `MagicEntry::matches`. -/
def entryMatches (e : MagicEntry) (data : List Nat) : Option (Option (MimeT × Nat)) :=
  entryMatchesAux e.mime_type e.priority data e.rules 0

/-- `MagicEntry::max_extents`: the maximum extent over the entry's rules
(`0` for no rules). -/
def MagicEntry.maxExtents (e : MagicEntry) : Nat :=
  (e.rules.map MagicRule.extent).foldr Nat.max 0

/-- `magic::lookup_data`: the first entry that matches the data, scanning in
load order; `none` (inner) when no entry matches.  A panic (outer `none`)
in an entry propagates. -/
def lookupData (entries : List MagicEntry) (data : List Nat) :
    Option (Option (MimeT × Nat)) :=
  match entries with
  | [] => some none
  | e :: rest =>
    match entryMatches e data with
    | none => none
    | some (some res) => some (some res)
    | some none => lookupData rest data

/-- `magic::max_extents`: the maximum of `max_extents` over the table
(`0` for an empty table). -/
def maxExtents (entries : List MagicEntry) : Nat :=
  (entries.map MagicEntry.maxExtents).foldr Nat.max 0

/-! ## Glob engine (`src/glob.rs`) -/

/-- ASCII lower-casing of a character (the fragment of Unicode case folding
exercised by the library's tables, which are ASCII). -/
def asciiLowerChar (c : Char) : Char :=
  if 'A' ≤ c ∧ c ≤ 'Z' then Char.ofNat (c.toNat + 32) else c

/-- ASCII lower-casing of a string.  Models `str::to_lowercase` of the Rust
standard library on its ASCII fragment. -/
def asciiLower (s : String) : String :=
  String.mk (s.data.map asciiLowerChar)

/-- Case-insensitive string equality: models the equality of the external
`unicase` crate (`UniCase::new(a) == UniCase::new(b)`) on its ASCII
fragment. -/
def uniCaseEq (a b : String) : Bool :=
  asciiLower a = asciiLower b

/-- `str::ends_with` with a string pattern: `post` is a suffix of `s`.
UTF-8 is self-synchronizing, so the byte-suffix test of the Rust standard
library coincides with the character-suffix test. -/
def strEndsWith (s post : String) : Bool :=
  post.data.isSuffixOf s.data

/-- `GlobType`: the classification of a pattern.  A `full` pattern carries
the matching predicate of the external `glob` crate (`Pattern::matches`) as
an opaque function of the file name. -/
inductive GlobType where
  | literal (s : String)
  | simple (s : String)
  | full (pat : String → Bool)

/-- A glob record (`Glob` in `src/glob.rs`). -/
structure Glob where
  glob : GlobType
  weight : Int
  case_sensitive : Bool
  mime_type : MimeT

/-- `Glob::compare`: literal patterns compare case-insensitively; simple
patterns test the suffix, retrying on the lower-cased name when the glob is
case-insensitive; full patterns apply the pattern's matcher. -/
def Glob.compare (g : Glob) (file_name : String) : Bool :=
  match g.glob with
  | .literal s => uniCaseEq s file_name
  | .simple s =>
    if strEndsWith file_name s then true
    else if ¬g.case_sensitive then strEndsWith (asciiLower file_name) s
    else false
  | .full p => p file_name

/-- `GlobMap::lookup_mime_type_for_file_name`: collect the globs whose
pattern matches, return `none` if there are none, else stably sort them by
ascending weight (`sort_by` on `weight` is a stable sort; insertion sort
computes the same list) and return their MIME types. -/
def lookupMimeTypeForFileName (globs : List Glob) (file_name : String) :
    Option (List MimeT) :=
  let matching := globs.filter (fun g => g.compare file_name)
  if matching.isEmpty then none
  else
    some ((List.insertionSort (fun a b => a.weight ≤ b.weight) matching).map
      (·.mime_type))

/-! ## Icon loader (`src/icon.rs`) -/

/-- An icon record.  The name and MIME type are byte strings, as read from
the file. -/
structure Icon where
  icon_name : List Nat
  mime_type : List Nat
deriving DecidableEq, Repr

/-- Whether a byte is a UTF-8 continuation byte (`0x80..=0xBF`). -/
def isCont (b : Nat) : Bool := 0x80 ≤ b ∧ b ≤ 0xBF

/-- UTF-8 validity of a byte sequence (the check performed by
`String::from_utf8` when `BufRead::read_line` converts the bytes of a line;
an invalid sequence makes `lines()` yield an `Err`). -/
def utf8Valid : List Nat → Bool
  | [] => true
  | b :: rest =>
    if b ≤ 0x7F then utf8Valid rest
    else if 0xC2 ≤ b ∧ b ≤ 0xDF then
      match rest with
      | c :: rest2 => isCont c && utf8Valid rest2
      | [] => false
    else if b = 0xE0 then
      match rest with
      | c1 :: c2 :: rest2 => (0xA0 ≤ c1 ∧ c1 ≤ 0xBF : Bool) && isCont c2 && utf8Valid rest2
      | _ => false
    else if (0xE1 ≤ b ∧ b ≤ 0xEC) ∨ b = 0xEE ∨ b = 0xEF then
      match rest with
      | c1 :: c2 :: rest2 => isCont c1 && isCont c2 && utf8Valid rest2
      | _ => false
    else if b = 0xED then
      match rest with
      | c1 :: c2 :: rest2 => (0x80 ≤ c1 ∧ c1 ≤ 0x9F : Bool) && isCont c2 && utf8Valid rest2
      | _ => false
    else if b = 0xF0 then
      match rest with
      | c1 :: c2 :: c3 :: rest2 =>
        (0x90 ≤ c1 ∧ c1 ≤ 0xBF : Bool) && isCont c2 && isCont c3 && utf8Valid rest2
      | _ => false
    else if 0xF1 ≤ b ∧ b ≤ 0xF3 then
      match rest with
      | c1 :: c2 :: c3 :: rest2 => isCont c1 && isCont c2 && isCont c3 && utf8Valid rest2
      | _ => false
    else if b = 0xF4 then
      match rest with
      | c1 :: c2 :: c3 :: rest2 =>
        (0x80 ≤ c1 ∧ c1 ≤ 0x8F : Bool) && isCont c2 && isCont c3 && utf8Valid rest2
      | _ => false
    else false

/-- The chunks read by successive `BufRead::read_line` calls: maximal
segments ending in `\n` (byte `10`, kept in the chunk), with a final
newline-less chunk when the input does not end in `\n`. -/
def lineChunks : List Nat → List (List Nat)
  | [] => []
  | b :: rest =>
    if b = 10 then [10] :: lineChunks rest
    else
      match lineChunks rest with
      | [] => [[b]]
      | c :: cs => (b :: c) :: cs

/-- The trimming performed by `BufRead::lines`: strip the trailing `\n`, and
then a trailing `\r` only when a `\n` was stripped. -/
def trimLine (chunk : List Nat) : List Nat :=
  if chunk.getLast? = some 10 then
    let c := chunk.dropLast
    if c.getLast? = some 13 then c.dropLast else c
  else chunk

/-- `Icon::from_string` (operating on the bytes of the already UTF-8-valid
line): split on `:` (byte `58`); both chunks must be non-empty and a third
chunk must not exist. -/
def iconFromString (line : List Nat) : Option Icon :=
  match line.splitOn 58 with
  | [m, i] => if m ≠ [] ∧ i ≠ [] then some ⟨i, m⟩ else none
  | _ => none

/-- The line loop of `read_icons_from_file`, before sorting: `lines()` yields
each chunk; a chunk of invalid UTF-8 is an `Err`, which the source `unwrap`s
— a panic, modelled as `none`.  Empty and `#`-prefixed lines (byte `35`) are
skipped; unparsable lines are dropped. -/
def processIconLines : List (List Nat) → Option (List Icon)
  | [] => some []
  | chunk :: rest =>
    if utf8Valid chunk then
      let line := trimLine chunk
      if line = [] ∨ line.head? = some 35 then processIconLines rest
      else
        match iconFromString line with
        | some icon => (processIconLines rest).map (icon :: ·)
        | none => processIconLines rest
    else none

/-- `read_icons_from_file`, as a function of the file's byte content: process
the lines, then `sort_unstable` by the MIME type (lexicographic byte order;
insertion sort computes a sort with the same element order).  `none` models
the panic on a non-UTF-8 line. -/
def readIconsFromBytes (bytes : List Nat) : Option (List Icon) :=
  (processIconLines (lineChunks bytes)).map
    (List.insertionSort (fun a b => a.mime_type ≤ b.mime_type))

/-! ## Classifier facade (`src/lib.rs`) -/

/-- The tables of `SharedMimeInfo` used by the query operations (the icon
tables and the source-directory list play no role in the claims below). -/
structure MimeDb where
  aliases : List Alias
  parents : ParentsMap
  globs : List Glob
  magic : List MagicEntry

/-- `SharedMimeInfo::unalias_mime_type`. -/
def unaliasMimeType (db : MimeDb) (mime_type : MimeT) : Option MimeT :=
  unaliasList db.aliases mime_type

/-- `looks_like_text`: no byte of the first 128 is an ASCII control byte
(`0x00..=0x1F` or `0x7F`) that is not ASCII whitespace
(`u8::is_ascii_whitespace`: space, `\t`, `\n`, `\x0C`, `\r` — not `\x0B`). -/
def looksLikeText (data : List Nat) : Bool :=
  !((data.take 128).any (fun ch =>
    (ch ≤ 0x1F ∨ ch = 0x7F : Bool) && !(ch = 0x20 ∨ ch = 0x09 ∨ ch = 0x0A ∨ ch = 0x0C ∨ ch = 0x0D : Bool)))

/-- `SharedMimeInfo::mime_type_subclass`, with explicit fuel for its
unbounded recursion on direct parents.  One unit of fuel is spent per
nesting level; `none` means the fuel ran out, so the Rust recursion reaches
at least that depth.  The recursive call passes the parent and the already
unaliased base, exactly as the source does. -/
def mimeTypeSubclass (db : MimeDb) : Nat → MimeT → MimeT → Option Bool
  | 0, _, _ => none
  | fuel + 1, mime_type, base =>
    let um := (unaliasMimeType db mime_type).getD mime_type
    let ub := (unaliasMimeType db base).getD base
    if um = ub then some true
    else if ub.subtype = "*" ∧ ub.type_ = um.type_ then some true
    else if ub = textPlain ∧ um.type_ = "text" then some true
    else if ub = octetStream ∧ um.type_ ≠ "inode" then some true
    else
      match parentsLookup db.parents um with
      | none => some false
      | some parents =>
        parents.foldl
          (fun acc p =>
            match acc with
            | none => none
            | some true => some true
            | some false => mimeTypeSubclass db fuel p ub)
          (some false)

/-- `SharedMimeInfo::get_mime_types_from_file_name`: the glob lookup, with
`[application/octet-stream]` when no glob matches. -/
def getMimeTypesFromFileName (db : MimeDb) (file_name : String) : List MimeT :=
  (lookupMimeTypeForFileName db.globs file_name).getD [octetStream]

/-- `SharedMimeInfo::get_mime_type_for_data`: `(application/x-zerosize, 100)`
for empty data, else the magic lookup.  The outer `Option` is a panic inside
the magic engine. -/
def getMimeTypeForData (db : MimeDb) (data : List Nat) :
    Option (Option (MimeT × Nat)) :=
  if data.isEmpty then some (some (xZerosize, 100))
  else lookupData db.magic data

/-- The result of a guess. -/
structure GuessT where
  mime : MimeT
  uncertain : Bool
deriving DecidableEq, Repr

/-- `GuessBuilder::data`: append to the builder's data the given slice,
truncated to `max_extents` of the database's magic table when longer. -/
def builderData (db : MimeDb) (cur : List Nat) (data : List Nat) : List Nat :=
  let max_data_size := maxExtents db.magic
  if data.length > max_data_size then cur ++ data.take max_data_size
  else cur ++ data

/-- The `find` over the glob candidates in `GuessBuilder::guess`:
`name_mime_types.iter().find(|m| db.mime_type_subclass(m, &mime))`.  The
outer `Option` is divergence of `mime_type_subclass` (fuel exhaustion). -/
def findSubclassCandidate (db : MimeDb) (fuel : Nat) :
    List MimeT → MimeT → Option (Option MimeT)
  | [], _ => some none
  | n :: rest, target =>
    match mimeTypeSubclass db fuel n target with
    | none => none
    | some true => some (some n)
    | some false => findSubclassCandidate db fuel rest target

/-- `GuessBuilder::guess` for a builder whose `path` and `metadata` are
unset (the filesystem-derived inputs are out of scope of a pure embedding):
the resolution sequence of `src/lib.rs` lines 347-431.  `file_name` is the
builder's file name, `data` the builder's (already truncated) data.  The
outer `Option` is a panic or divergence inside the used sub-operations. -/
def guess (db : MimeDb) (fuel : Nat) (file_name : Option String)
    (data : List Nat) : Option GuessT :=
  let name_mime_types : List MimeT :=
    match file_name with
    | some n => getMimeTypesFromFileName db n
    | none => []
  if name_mime_types.length = 1 ∧ name_mime_types.getD 0 octetStream ≠ octetStream then
    some ⟨name_mime_types.getD 0 octetStream, false⟩
  else
    match getMimeTypeForData db data with
    | none => none
    | some sniffRes =>
      let sniffed := sniffRes.getD (octetStream, 80)
      if name_mime_types.isEmpty then
        if data.isEmpty then some ⟨octetStream, true⟩
        else some ⟨sniffed.1, sniffed.1 = octetStream⟩
      else
        let prio := sniffed.2
        let mime :=
          if sniffed.1 = octetStream ∧ ¬data.isEmpty ∧ looksLikeText data then
            textPlain
          else sniffed.1
        if mime ≠ octetStream ∧ prio ≥ 80 then some ⟨mime, false⟩
        else
          match
            (if mime ≠ octetStream then
              findSubclassCandidate db fuel name_mime_types mime
            else some none) with
          | none => none
          | some (some found) => some ⟨found, false⟩
          | some none =>
            match name_mime_types.head? with
            | some first => some ⟨first, true⟩
            | none => some ⟨octetStream, true⟩

/-! ## Spec-side definitions

These two definitions follow the specification's words, not the source; they
exist to be compared with the source-derived definitions above. -/

/-- The spec's `looks_like_text` (§4.7.3 of the design): true iff none of the
first 128 bytes is an ASCII control byte (`0x00..=0x1F` or DEL `0x7F`) other
than the whitespace bytes tab `0x09`, LF `0x0A`, VT `0x0B`, FF `0x0C`,
CR `0x0D`. -/
def specLooksLikeText (data : List Nat) : Bool :=
  !((data.take 128).any (fun ch =>
    (ch ≤ 0x1F ∨ ch = 0x7F : Bool) &&
      !(ch = 0x09 ∨ ch = 0x0A ∨ ch = 0x0B ∨ ch = 0x0C ∨ ch = 0x0D : Bool)))

/-- The spec's magic-entry protocol (§4.5 of the design), written from its
words: scan the rules in order with a current depth starting at `0`; a rule
is considered only when its indent equals the current depth and it matches
the data; the entry then matches iff that rule is the last rule or the next
rule's indent is `≤` the current depth, and otherwise the depth is
incremented and the scan continues; if no rule triggers a return the entry
does not match. -/
def specEntryProtocol (mt : MimeT) (prio : Nat) (data : List Nat) :
    List MagicRule → Nat → Option (MimeT × Nat)
  | [], _ => none
  | r :: rest, depth =>
    if r.indent = depth ∧ matchesDataCore r data then
      match rest with
      | [] => some (mt, prio)
      | next :: _ =>
        if next.indent ≤ depth then some (mt, prio)
        else specEntryProtocol mt prio data rest (depth + 1)
    else specEntryProtocol mt prio data rest depth

/-! ## Concrete inputs used by counterexamples and witnesses -/

/-- A second plausible text type used to build a glob conflict. -/
def mimeXTest : MimeT := ⟨"text", "x-test"⟩

/-- A database whose glob table maps the suffix `.zz` to two MIME types and
whose other tables are empty: a file name `*.zz` yields two conflicting name
candidates. -/
def dbConflictingGlobs : MimeDb where
  aliases := []
  parents := []
  globs :=
    [⟨.simple ".zz", 50, false, textPlain⟩, ⟨.simple ".zz", 50, false, mimeXTest⟩]
  magic := []

/-- A database with all tables empty. -/
def dbEmpty : MimeDb where
  aliases := []
  parents := []
  globs := []
  magic := []

def mimeAX : MimeT := ⟨"a", "x"⟩
def mimeBX : MimeT := ⟨"b", "x"⟩
def mimeCY : MimeT := ⟨"c", "y"⟩

/-- A database whose subclasses file declared `a/x b/x` and `b/x a/x`:
the parents map contains a two-cycle. -/
def dbCyclic : MimeDb where
  aliases := []
  parents := [(mimeAX, [mimeBX]), (mimeBX, [mimeAX])]
  globs := []
  magic := []

def mimeInodeBlk : MimeT := ⟨"inode", "blk"⟩

/-- A database whose subclasses file declared
`inode/blk application/octet-stream`. -/
def dbInodeParent : MimeDb where
  aliases := []
  parents := [(mimeInodeBlk, [octetStream])]
  globs := []
  magic := []

/-- A magic rule with an empty value, as produced by the magic parser from
the rule line `>0=` followed by the big-endian length `0x0000` and a
newline. -/
def emptyValueRule : MagicRule :=
  ⟨0, 0, [], none, 1, 1⟩

/-- The byte string `hello`. -/
def helloBytes : List Nat := [104, 101, 108, 108, 111]

/-! ## Theorems -/

/-- Claim C5, counterexample: the buffer `[0x0B]` (a lone vertical tab) is
text for the claim, whose whitespace set contains VT, but not for the code —
`u8::is_ascii_whitespace` does not include `0x0B`, so `looks_like_text`
treats VT as a non-whitespace control byte and returns `false`. -/
theorem claim5_counterexample :
    specLooksLikeText [0x0B] = true ∧ looksLikeText [0x0B] = false := by
  decide

/-- Claim C5, amended: `looks_like_text([])` is true, and `looks_like_text`
holds iff none of the first 128 bytes is an ASCII control byte (`0x00..=0x1F`
or DEL `0x7F`) other than tab, LF, FF and CR — unlike the claim's whitespace
set, VT (`0x0B`) is not whitespace for the code. -/
theorem claim5_amended :
    looksLikeText [] = true ∧
    ∀ data : List Nat, looksLikeText data = true ↔
      ∀ b ∈ data.take 128, (b ≤ 0x1F ∨ b = 0x7F) →
        b = 0x09 ∨ b = 0x0A ∨ b = 0x0C ∨ b = 0x0D := by
  refine ⟨rfl, fun data => ?_⟩
  rw [looksLikeText, Bool.not_eq_true', List.any_eq_false]
  constructor
  · intro h b hb hctl
    have hpb := h b hb
    simp only [Bool.and_eq_true, decide_eq_true_eq, Bool.not_eq_true',
      decide_eq_false_iff_not, not_and, not_not] at hpb
    have := hpb hctl
    omega
  · intro h b hb
    have hcb := h b hb
    simp only [Bool.and_eq_true, decide_eq_true_eq, Bool.not_eq_true',
      decide_eq_false_iff_not, not_and, not_not]
    intro hctl
    have := hcb hctl
    omega

/-- On the cyclic database, one step of `mime_type_subclass` from `a/x`
reduces to the call on `b/x` and vice versa: no amount of fuel produces a
result. -/
theorem subclass_cyclic_none (f : Nat) :
    mimeTypeSubclass dbCyclic f mimeAX mimeCY = none ∧
    mimeTypeSubclass dbCyclic f mimeBX mimeCY = none := by
  induction f with
  | zero => exact ⟨rfl, rfl⟩
  | succ f ih => exact ⟨ih.2, ih.1⟩

/-- Claim C3 fails on the code: `mime_type_subclass` has no visited set and
no depth bound, so on a database whose subclass records form the two-cycle
`a/x ↔ b/x` the query `mime_type_subclass(a/x, c/y)` recurses forever.  In
the fuel semantics: no fuel yields an answer. -/
theorem claim3_no_cycle_protection (f : Nat) :
    mimeTypeSubclass dbCyclic f mimeAX mimeCY = none :=
  (subclass_cyclic_none f).1

/-- Claim C4 fails on the code: the icons loader calls `line.unwrap()`, which
panics when a line of the file is not valid UTF-8 (byte `0xFF` alone), and
`MagicRule::matches_data` calls `data.windows(0)`, which panics, for the
parser-accepted rule with an empty value. -/
theorem claim4_loader_panics :
    readIconsFromBytes [0xFF] = none ∧
    matchesData emptyValueRule [0, 1, 2] = none := by
  decide

/-- `GuessBuilder::data` always appends exactly the `max_extents`-byte
prefix of its argument (the whole argument when it is short enough). -/
theorem builderData_eq (db : MimeDb) (cur data : List Nat) :
    builderData db cur data = cur ++ data.take (maxExtents db.magic) := by
  unfold builderData
  by_cases h : data.length > maxExtents db.magic
  · simp [h]
  · simp only [h, if_neg, ite_false, if_false]
    rw [List.take_of_length_le (by omega)]

/-- Claim C10: `GuessBuilder::data` retains at most `max_extents` bytes of
the slice (its prefix of that length); with an empty magic table the
retained data is empty and a subsequent guess behaves as if no data had been
supplied (the builder starts with empty data). -/
theorem claim10_data_truncation :
    ∀ (db : MimeDb) (cur data : List Nat),
      builderData db cur data = cur ++ data.take (maxExtents db.magic) ∧
      (builderData db cur data).length ≤ cur.length + maxExtents db.magic ∧
      (db.magic = [] →
        maxExtents db.magic = 0 ∧
        builderData db [] data = [] ∧
        ∀ (fuel : Nat) (file_name : Option String),
          guess db fuel file_name (builderData db [] data) =
            guess db fuel file_name []) := by
  intro db cur data
  refine ⟨builderData_eq db cur data, ?_, ?_⟩
  · rw [builderData_eq db cur data]
    have := List.length_take (maxExtents db.magic) data
    simp only [List.length_append]
    omega
  · intro hmagic
    have h0 : maxExtents db.magic = 0 := by rw [hmagic]; rfl
    have hb : builderData db [] data = [] := by
      rw [builderData_eq db [] data, h0]
      simp
    exact ⟨h0, hb, fun fuel file_name => by rw [hb]⟩

/-- A closed instance of claim C10: a rule with value `hello` at offset `0`,
range `1`, gives `max_extents = 6`, and an 8-byte slice is truncated to its
6-byte prefix; on the empty database the `db.magic = []` hypothesis of the
third conjunct is discharged and guessing after `data` equals guessing with
no data. -/
theorem claim10_witness :
    (builderData
        ⟨[], [], [], [⟨textPlain, 50, [⟨0, 0, helloBytes, none, 1, 1⟩]⟩]⟩
        [] [0, 1, 2, 3, 4, 5, 6, 7] =
      [] ++ [0, 1, 2, 3, 4, 5, 6, 7].take
        (maxExtents [⟨textPlain, 50, [⟨0, 0, helloBytes, none, 1, 1⟩]⟩])) ∧
    guess dbEmpty 1 none (builderData dbEmpty [] helloBytes) =
      guess dbEmpty 1 none [] :=
  ⟨(claim10_data_truncation
      ⟨[], [], [], [⟨textPlain, 50, [⟨0, 0, helloBytes, none, 1, 1⟩]⟩]⟩
      [] [0, 1, 2, 3, 4, 5, 6, 7]).1,
    ((claim10_data_truncation dbEmpty [] helloBytes).2.2 rfl).2.2 1 none⟩

/-- Claim C1 fails on the code: a guess built only from a file name (empty
data) whose glob candidates conflict does NOT treat the sniff as
`(application/octet-stream, 80)` — `get_mime_type_for_data` special-cases
empty data to `(application/x-zerosize, 100)`, and the priority-100 branch
returns it as a certain guess.  The guess of `a.zz` with no data on the
two-candidate database is exactly the MIME type of the empty-data path. -/
theorem claim1_zerosize_escapes :
    guess dbConflictingGlobs 1 (some "a.zz") [] = some ⟨xZerosize, false⟩ ∧
    getMimeTypeForData dbConflictingGlobs [] = some (some (xZerosize, 100)) := by
  decide

/-- Claim C2, counterexample: data `hello` with no file name, no magic match
and `looks_like_text` true yields `application/octet-stream`, uncertain —
not `text/plain`: with an empty candidate list the code returns the sniffed
MIME type without applying the text fallback. -/
theorem claim2_counterexample :
    helloBytes ≠ [] ∧
    looksLikeText helloBytes = true ∧
    lookupData dbEmpty.magic helloBytes = some none ∧
    guess dbEmpty 1 none helloBytes = some ⟨octetStream, true⟩ ∧
    octetStream ≠ textPlain := by
  decide

/-- Claim C2, amended: when no file name is set (so the candidate list is
empty), the data is non-empty, the magic engine yields no match, and
`looks_like_text(data)` holds, `guess` returns `application/octet-stream`
flagged uncertain: the `N`-is-empty return of step 6 is taken before the
text fallback of step 5, which the code applies only when `N` is
non-empty. -/
theorem claim2_amended :
    ∀ (db : MimeDb) (fuel : Nat) (data : List Nat),
      data ≠ [] →
      lookupData db.magic data = some none →
      looksLikeText data = true →
      guess db fuel none data = some ⟨octetStream, true⟩ := by
  intro db fuel data hne hmagic _
  have hde : data.isEmpty = false := by
    cases data with
    | nil => exact absurd rfl hne
    | cons a l => rfl
  unfold guess getMimeTypeForData
  simp [hde, hmagic]

/-- Closed instance of the amended claim C2, hypotheses discharged at
`hello` on the empty database. -/
theorem claim2_witness :
    guess dbEmpty 1 none helloBytes = some ⟨octetStream, true⟩ :=
  claim2_amended dbEmpty 1 helloBytes (by decide) (by decide) (by decide)

/-- Claim C8, counterexample: on a database whose subclasses table declares
`inode/blk application/octet-stream`, the type part of `inode/blk` is
`inode` and yet `mime_type_subclass(inode/blk, application/octet-stream)`
is true — the recursion finds `application/octet-stream` among the direct
parents. -/
theorem claim8_counterexample :
    mimeTypeSubclass dbInodeParent 2 mimeInodeBlk octetStream = some true ∧
    ((unaliasMimeType dbInodeParent mimeInodeBlk).getD mimeInodeBlk).type_ =
      "inode" := by
  decide

/-- Claim C8, amended: in a database that does not alias
`application/octet-stream` and whose parents map has no entry for an
`inode`-typed MIME, `mime_type_subclass(m, application/octet-stream)` is
true iff the type part of `m` after unaliasing is not `inode` (and the
answer needs a single unit of fuel: no recursion takes place). -/
theorem claim8_amended :
    ∀ (db : MimeDb) (m : MimeT) (fuel : Nat),
      unaliasMimeType db octetStream = none →
      (∀ p ∈ db.parents, p.1.type_ ≠ "inode") →
      mimeTypeSubclass db (fuel + 1) m octetStream =
        some (decide (((unaliasMimeType db m).getD m).type_ ≠ "inode")) := by
  intro db m fuel hoct hpar
  simp only [mimeTypeSubclass, hoct, Option.getD_none]
  by_cases h1 : (unaliasMimeType db m).getD m = octetStream
  · rw [if_pos h1, h1]
    simp [octetStream]
  · rw [if_neg h1]
    have hstar :
        ¬(octetStream.subtype = "*" ∧
          octetStream.type_ = ((unaliasMimeType db m).getD m).type_) := by
      simp [octetStream]
    rw [if_neg hstar]
    have htp :
        ¬(octetStream = textPlain ∧
          ((unaliasMimeType db m).getD m).type_ = "text") := by
      simp [octetStream, textPlain]
    rw [if_neg htp]
    by_cases h2 : ((unaliasMimeType db m).getD m).type_ = "inode"
    · rw [if_neg (by simp [h2])]
      have hfind : parentsLookup db.parents ((unaliasMimeType db m).getD m) = none := by
        unfold parentsLookup
        rw [List.find?_eq_none.mpr, Option.map_none']
        intro p hp
        simp only [decide_eq_true_eq]
        intro hpe
        exact hpar p hp (by rw [hpe, h2])
      rw [hfind]
      simp [h2]
    · rw [if_pos ⟨trivial, h2⟩]
      simp [h2]

/-- Closed instance of the amended claim C8: on the empty database,
`text/plain` is a subclass of `application/octet-stream` and its type is not
`inode`. -/
theorem claim8_witness :
    mimeTypeSubclass dbEmpty 1 textPlain octetStream = some true :=
  (claim8_amended dbEmpty textPlain 0 (by decide) (by simp [dbEmpty])).trans
    (by decide)

instance : IsTotal Glob (fun a b => a.weight ≤ b.weight) :=
  ⟨fun a b => Int.le_total a.weight b.weight⟩

instance : IsTrans Glob (fun a b => a.weight ≤ b.weight) :=
  ⟨fun _ _ _ h1 h2 => le_trans h1 h2⟩

/-- Claim C9: the glob lookup returns `none` exactly when no glob matches
the file name; otherwise it returns the MIME types of exactly the matching
globs (a permutation of the filtered list), ordered by ascending weight. -/
theorem claim9_glob_lookup :
    ∀ (globs : List Glob) (file_name : String),
      (lookupMimeTypeForFileName globs file_name = none ↔
        ∀ g ∈ globs, g.compare file_name = false) ∧
      ∀ l, lookupMimeTypeForFileName globs file_name = some l →
        ∃ ms : List Glob,
          ms.Perm (globs.filter (fun g => g.compare file_name)) ∧
          ms.Pairwise (fun a b => a.weight ≤ b.weight) ∧
          l = ms.map (fun g => g.mime_type) := by
  intro globs file_name
  have key : (globs.filter (fun g => g.compare file_name)).isEmpty = true ↔
      ∀ g ∈ globs, g.compare file_name = false := by
    rw [List.isEmpty_iff, List.filter_eq_nil_iff]
    simp
  simp only [lookupMimeTypeForFileName]
  by_cases h : (globs.filter (fun g => g.compare file_name)).isEmpty = true
  · rw [if_pos h]
    exact ⟨⟨fun _ => key.mp h, fun _ => rfl⟩, fun l hl => Option.noConfusion hl⟩
  · rw [if_neg h]
    refine ⟨⟨fun hn => Option.noConfusion hn, fun hall => absurd (key.mpr hall) h⟩, ?_⟩
    intro l hl
    exact ⟨_, List.perm_insertionSort _ _, List.sorted_insertionSort _ _,
      (Option.some_inj.mp hl).symm⟩

/-- Closed instance of claim C9: on the two-glob table, the lookup of
`a.zz` returns a weight-sorted permutation of the matching globs' MIME
types. -/
theorem claim9_witness :
    ∃ ms : List Glob,
      ms.Perm (dbConflictingGlobs.globs.filter (fun g => g.compare "a.zz")) ∧
      ms.Pairwise (fun a b => a.weight ≤ b.weight) ∧
      [textPlain, mimeXTest] = ms.map (fun g => g.mime_type) :=
  (claim9_glob_lookup dbConflictingGlobs.globs "a.zz").2 [textPlain, mimeXTest]
    (by decide)

/-- Under the parser invariants (non-empty value, mask of the value's
length), `matches_data` does not panic and computes its core. -/
theorem matchesData_eq_core (r : MagicRule) (d : List Nat)
    (hv : r.value ≠ [])
    (hm : ∀ m, r.mask = some m → m.length = r.value.length) :
    matchesData r d = some (matchesDataCore r d) := by
  have hlen : r.value.length ≠ 0 := fun h => hv (List.length_eq_zero.mp h)
  unfold matchesData matchesDataCore
  cases hmask : r.mask with
  | none => simp [hlen]
  | some m =>
    have := hm m hmask
    simp [this, hlen]

/-- The windows, as a map over the selected start indices. -/
theorem ruleWindows_eq_map (r : MagicRule) (d : List Nat) :
    ruleWindows r d =
      (((List.range (d.length + 1 - r.value.length)).drop r.start_offset).take
        r.range_length).map (fun i => (d.drop i).take r.value.length) := by
  unfold ruleWindows
  rw [← List.map_drop, ← List.map_take]

/-- Membership in `take R (drop S (range n))` is exactly the interval
`[S, S + R) ∩ [0, n)`. -/
theorem mem_take_drop_range (n S R i : Nat) :
    i ∈ ((List.range n).drop S).take R ↔ S ≤ i ∧ i < S + R ∧ i < n := by
  rw [List.mem_take_iff_getElem]
  constructor
  · rintro ⟨j, hj, hget⟩
    simp only [List.getElem_drop, List.getElem_range] at hget
    rw [List.length_drop, List.length_range] at hj
    omega
  · rintro ⟨h1, h2, h3⟩
    refine ⟨i - S, ?_, ?_⟩
    · rw [List.length_drop, List.length_range]
      omega
    · simp only [List.getElem_drop, List.getElem_range]
      omega

/-- An element of a window of `data` starting at `i`. -/
theorem window_getD (d : List Nat) (i L j : Nat) (hj : j < L) :
    ((d.drop i).take L).getD j 0 = d.getD (i + j) 0 := by
  rw [List.getD_eq_getElem?_getD, List.getD_eq_getElem?_getD,
    List.getElem?_take_of_lt hj, List.getElem?_drop]

/-- `masked_slices_are_equal` on lists of the mask's length is the pointwise
equality of the masked bytes. -/
theorem maskedSlicesAreEqual_iff (a b mask : List Nat)
    (ha : a.length = mask.length) (hb : b.length = mask.length) :
    maskedSlicesAreEqual a b mask = true ↔
      ∀ j, j < mask.length →
        Nat.land (a.getD j 0) (mask.getD j 0) =
          Nat.land (b.getD j 0) (mask.getD j 0) := by
  unfold maskedSlicesAreEqual
  rw [decide_eq_true_eq]
  constructor
  · intro h j hj
    have hja : j < a.length := by omega
    have hjb : j < b.length := by omega
    have h1 := congrArg (fun l => l[j]?) h
    simp only [List.getElem?_zipWith, List.getElem?_eq_getElem, hja, hjb, hj,
      Option.some.injEq] at h1
    simp only [List.getD_eq_getElem?_getD, List.getElem?_eq_getElem, hja, hjb,
      hj, Option.getD_some]
    exact h1
  · intro h
    apply List.ext_getElem?
    intro j
    by_cases hj : j < mask.length
    · have hja : j < a.length := by omega
      have hjb : j < b.length := by omega
      have h1 := h j hj
      simp only [List.getD_eq_getElem?_getD, List.getElem?_eq_getElem, hja,
        hjb, hj, Option.getD_some] at h1
      simp only [List.getElem?_zipWith, List.getElem?_eq_getElem, hja, hjb, hj]
      rw [h1]
    · have hja : a.length ≤ j := by omega
      have hjb : b.length ≤ j := by omega
      simp only [List.getElem?_zipWith, List.getElem?_eq_none hja,
        List.getElem?_eq_none hjb]

/-- Claim C6: a magic rule with non-empty value and (when present) a mask of
the value's length matches `d` iff some position `i` of the half-open range
`[start_offset, start_offset + range_length)` with `i + len(value) ≤ len(d)`
matches: byte-exact equality of the window without a mask, masked byte
equality at every index with one. -/
theorem claim6_rule_matching :
    ∀ (r : MagicRule) (d : List Nat),
      r.value ≠ [] →
      (∀ m, r.mask = some m → m.length = r.value.length) →
      (matchesData r d = some true ↔
        ∃ i, r.start_offset ≤ i ∧ i < r.start_offset + r.range_length ∧
          i + r.value.length ≤ d.length ∧
          ((r.mask = none ∧ (d.drop i).take r.value.length = r.value) ∨
            ∃ m, r.mask = some m ∧ ∀ j, j < r.value.length →
              Nat.land (d.getD (i + j) 0) (m.getD j 0) =
                Nat.land (r.value.getD j 0) (m.getD j 0))) := by
  intro r d hv hm
  rw [matchesData_eq_core r d hv hm, Option.some_inj]
  have hL : r.value.length ≠ 0 := fun h => hv (List.length_eq_zero.mp h)
  cases hmask : r.mask with
  | none =>
    have hcore : matchesDataCore r d =
        (ruleWindows r d).any (fun w => w = r.value) := by
      unfold matchesDataCore
      rw [hmask]
    rw [hcore, ruleWindows_eq_map]
    simp only [List.any_eq_true, List.mem_map]
    constructor
    · rintro ⟨w, ⟨i, hi, rfl⟩, hpred⟩
      rw [mem_take_drop_range] at hi
      rw [decide_eq_true_eq] at hpred
      exact ⟨i, hi.1, hi.2.1, by omega, Or.inl ⟨trivial, hpred⟩⟩
    · rintro ⟨i, h1, h2, h3, hor⟩
      rcases hor with ⟨_, heq⟩ | ⟨m, hme, _⟩
      · refine ⟨(d.drop i).take r.value.length, ⟨i, ?_, rfl⟩, ?_⟩
        · rw [mem_take_drop_range]
          exact ⟨h1, h2, by omega⟩
        · rw [decide_eq_true_eq]
          exact heq
      · exact Option.noConfusion hme
  | some m =>
    have hmlen : m.length = r.value.length := hm m hmask
    have hcore : matchesDataCore r d =
        (ruleWindows r d).any (fun w => maskedSlicesAreEqual w r.value m) := by
      unfold matchesDataCore
      rw [hmask]
    rw [hcore, ruleWindows_eq_map]
    simp only [List.any_eq_true, List.mem_map]
    constructor
    · rintro ⟨w, ⟨i, hi, rfl⟩, hpred⟩
      rw [mem_take_drop_range] at hi
      have hiL : i + r.value.length ≤ d.length := by omega
      have hwlen : ((d.drop i).take r.value.length).length = m.length := by
        rw [List.length_take, List.length_drop, hmlen]
        omega
      rw [maskedSlicesAreEqual_iff _ _ _ hwlen hmlen.symm] at hpred
      refine ⟨i, hi.1, hi.2.1, hiL, Or.inr ⟨m, rfl, fun j hj => ?_⟩⟩
      have hpt := hpred j (by omega)
      rw [window_getD d i _ j hj] at hpt
      exact hpt
    · rintro ⟨i, h1, h2, h3, hor⟩
      rcases hor with ⟨hnone, _⟩ | ⟨m2, hme, hpt⟩
      · exact Option.noConfusion hnone
      · rw [Option.some_inj] at hme
        subst hme
        have hwlen : ((d.drop i).take r.value.length).length = m.length := by
          rw [List.length_take, List.length_drop, hmlen]
          omega
        refine ⟨(d.drop i).take r.value.length, ⟨i, ?_, rfl⟩, ?_⟩
        · rw [mem_take_drop_range]
          exact ⟨h1, h2, by omega⟩
        · rw [maskedSlicesAreEqual_iff _ _ _ hwlen hmlen.symm]
          intro j hj
          rw [window_getD d i _ j (by omega)]
          exact hpt j (by omega)

/-- Closed instance of claim C6 (scenario 12 of the design spec): the rule
`value = hello, offset = 1, range = 3` matches `1hello world` at position
`1`. -/
theorem claim6_witness :
    matchesData ⟨0, 1, helloBytes, none, 1, 3⟩ (49 :: helloBytes) = some true :=
  (claim6_rule_matching ⟨0, 1, helloBytes, none, 1, 3⟩ (49 :: helloBytes)
      (by decide) (fun m h => Option.noConfusion h)).mpr
    ⟨1, by decide, by decide, by decide, Or.inl ⟨rfl, by decide⟩⟩

/-- The loop of `MagicEntry::matches` agrees rule-by-rule with the spec's
protocol when no rule panics. -/
theorem entryMatchesAux_eq_spec (mt : MimeT) (prio : Nat) (data : List Nat) :
    ∀ (rules : List MagicRule) (depth : Nat),
      (∀ r ∈ rules, r.value ≠ [] ∧
        ∀ m, r.mask = some m → m.length = r.value.length) →
      entryMatchesAux mt prio data rules depth =
        some (specEntryProtocol mt prio data rules depth) := by
  intro rules
  induction rules with
  | nil => intro depth h; rfl
  | cons r rest ih =>
    intro depth h
    obtain ⟨hv, hm⟩ := h r (List.mem_cons_self r rest)
    have hrest : ∀ r' ∈ rest, r'.value ≠ [] ∧
        ∀ m, r'.mask = some m → m.length = r'.value.length :=
      fun r' hr' => h r' (List.mem_cons_of_mem r hr')
    by_cases hind : r.indent = depth
    · cases hmatch : matchesDataCore r data with
      | false =>
        simp only [entryMatchesAux, specEntryProtocol,
          matchesData_eq_core r data hv hm, hmatch, hind, if_true,
          Bool.false_eq_true, and_false, if_false, ite_self, ite_true,
          eq_self_iff_true]
        exact ih depth hrest
      | true =>
        cases rest with
        | nil =>
          simp [entryMatchesAux, specEntryProtocol,
            matchesData_eq_core r data hv hm, hmatch, hind]
        | cons next rest2 =>
          by_cases hnext : next.indent ≤ depth
          · simp [entryMatchesAux, specEntryProtocol,
              matchesData_eq_core r data hv hm, hmatch, hind, hnext]
          · simp only [entryMatchesAux, specEntryProtocol,
              matchesData_eq_core r data hv hm, hmatch, hind, hnext, if_true,
              if_false, and_true, eq_self_iff_true, ite_true, ite_false]
            exact ih (depth + 1) hrest
    · simp only [entryMatchesAux, specEntryProtocol, hind, if_false,
        false_and, ite_false]
      exact ih depth hrest

/-- Claim C7: on an entry whose rules have non-empty values and well-sized
masks (the invariant of parsed rules), `MagicEntry::matches` computes
exactly the flattened pre-order protocol of the specification, starting at
depth `0`. -/
theorem claim7_entry_protocol :
    ∀ (e : MagicEntry) (data : List Nat),
      (∀ r ∈ e.rules, r.value ≠ [] ∧
        ∀ m, r.mask = some m → m.length = r.value.length) →
      entryMatches e data =
        some (specEntryProtocol e.mime_type e.priority data e.rules 0) :=
  fun e data h => entryMatchesAux_eq_spec e.mime_type e.priority data e.rules 0 h

/-- Closed instance of claim C7: a two-rule entry (child indented under a
root) evaluated on data matching both rules along the root-to-leaf path. -/
theorem claim7_witness :
    entryMatches
        ⟨textPlain, 50, [⟨0, 0, [80], none, 1, 1⟩, ⟨1, 1, [81], none, 1, 1⟩]⟩
        [80, 81] =
      some (specEntryProtocol textPlain 50 [80, 81]
        [⟨0, 0, [80], none, 1, 1⟩, ⟨1, 1, [81], none, 1, 1⟩] 0) :=
  claim7_entry_protocol
    ⟨textPlain, 50, [⟨0, 0, [80], none, 1, 1⟩, ⟨1, 1, [81], none, 1, 1⟩]⟩
    [80, 81]
    (by
      intro r hr
      rcases List.mem_cons.mp hr with rfl | hr2
      · exact ⟨by decide, fun m h => Option.noConfusion h⟩
      · rcases List.mem_cons.mp hr2 with rfl | hr3
        · exact ⟨by decide, fun m h => Option.noConfusion h⟩
        · exact absurd hr3 (List.not_mem_nil r))

end XdgMime

